import Mathlib

/-!
Shallow embedding of the `http-js` request dispatcher (src/http-js.ts).

The dispatcher class `HttpJS` owns a FIFO queue of pending requests, a
registry mapping a url to its completion callback, an optional record of
the options of the in-flight request, and a running flag.  The single
`XMLHttpRequest` transport handle is a platform object, not repository
code; we model the dispatcher's effects on it as an emitted list of
`TransportOp` commands (open / setRequestHeader / send / abort), and the
transport's observable fields at a state-change notification as a
`TransportView` (readyState, status, responseText) supplied by the
environment.  Callbacks are identified by a natural-number id; an
invocation is recorded as a `CallbackCall` event carrying the decoded
result and the status code.  (The third argument the source passes to a
callback, a reference to the notifying object, carries no data and is
outside the model.)  `JSON.parse` is a platform function; since no claim
depends on the parsed value itself, only on whether parsing was attempted,
the decoded result is modeled abstractly: `HttpResult.parsed body` for
"body parsed as structured data", `HttpResult.raw body` for the raw text.
-/

/-- Options supplied with each request (type `HttpJSRequestOptions`):
`method` is `"GET" | "POST"` (modeled as a string), `url` is the request
identity, `params` is an unused placeholder, `isJson` is an optional flag
(`none` models the field being absent / `undefined`). -/
structure HttpJSRequestOptions where
  method : String
  url : String
  params : Option String := none
  isJson : Option Bool := none
  deriving Repr, DecidableEq

/-- A queued task (type `HttpJSRequest`): the options together with the
completion handler, the latter modeled by a callback id. -/
structure HttpJSRequest where
  options : HttpJSRequestOptions
  handler : Nat
  deriving Repr, DecidableEq

/-- A command the dispatcher issues on the `XMLHttpRequest` handle. -/
inductive TransportOp where
  | xhrOpen (method : String) (url : String) (async : Bool)
  | setRequestHeader (name : String) (value : String)
  | send
  | abort
  deriving Repr, DecidableEq

/-- The decoded result handed to a completion callback: either the response
body parsed as structured data (`JSON.parse(responseText)`), or the raw
response text unchanged. -/
inductive HttpResult where
  | parsed (body : String)
  | raw (body : String)
  deriving Repr, DecidableEq

/-- One recorded callback invocation: which handler fired, with which
decoded result and status code. -/
structure CallbackCall where
  cbId : Nat
  result : HttpResult
  statusCode : Nat
  deriving Repr, DecidableEq

/-- The transport's observable fields when a ready-state notification
fires: `readyState` (`none` models `undefined`), `status`, `responseText`. -/
structure TransportView where
  readyState : Option Nat
  status : Nat
  responseText : String
  deriving Repr, DecidableEq

/-- The mutable fields of the `HttpJS` class: the completion-handler
registry (a JS object keyed by url, modeled as an association list), the
options of the in-flight request, the FIFO queue, and the running flag. -/
structure HttpJS where
  completionHandlers : List (String × Nat)
  options : Option HttpJSRequestOptions
  queue : List HttpJSRequest
  isRunning : Bool
  deriving Repr, DecidableEq

namespace HttpJS

/-- The dispatcher state built by the constructor: empty registry, no
current options, empty queue, not running. -/
def initial : HttpJS := ⟨[], none, [], false⟩

/-- JS object property write `completionHandlers[url] = handler`:
overwrites an existing entry for `url`, otherwise adds one. -/
def setHandler : List (String × Nat) → String → Nat → List (String × Nat)
  | [], url, cb => [(url, cb)]
  | (k, v) :: rest, url, cb =>
      if k = url then (k, cb) :: rest else (k, v) :: setHandler rest url cb

/-- JS object property read `completionHandlers[url]`: `none` models
`undefined`. -/
def getHandler : List (String × Nat) → String → Option Nat
  | [], _ => none
  | (k, v) :: rest, url => if k = url then some v else getHandler rest url

/-- JS `delete completionHandlers[url]`. -/
def deleteHandler : List (String × Nat) → String → List (String × Nat)
  | [], _ => []
  | (k, v) :: rest, url =>
      if k = url then rest else (k, v) :: deleteHandler rest url

/-- The function `isStateReady()` (src/http-js.ts:220-224): reads the transport's
`readyState` and returns `!(state !== undefined && readyState !== 4)`. -/
def isStateReady (state : Option Nat) : Bool :=
  !(state.isSome && state != some 4)

/-- The function `setJsonHeaders()` (src/http-js.ts:261-265): if `options` is undefined
or `options.isJson` is undefined, do nothing; if `isJson` is `false`, do
nothing; otherwise set the `Accept: application/json` request header.
Returns the emitted transport commands. -/
def setJsonHeaders (options : Option HttpJSRequestOptions) : List TransportOp :=
  match options with
  | none => []
  | some o =>
      match o.isJson with
      | none => []
      | some false => []
      | some true => [.setRequestHeader "Accept" "application/json"]

/-- The callback of the queue filter at src/http-js.ts:176,
`h => { h.options.url !== e.options.url }`: an arrow function whose body
is a BLOCK containing an expression statement.  The comparison is
evaluated and discarded; with no `return` statement the function returns
`undefined`, which `Array.prototype.filter` coerces to `false`.  We model
the block-completion semantics explicitly: the compared value is dropped
and the function's result is `undefined` (`none`), then coerced by
ToBoolean. -/
def executeFilterPred (e h : HttpJSRequest) : Bool :=
  let blockResult : Option Bool :=
    (fun (_discarded : Bool) => none) (decide (h.options.url ≠ e.options.url))
  match blockResult with
  | none => false
  | some b => b

/-- The function `execute()` (src/http-js.ts:155-178): if `isRunning`, return.  Shift
the head of the queue; if there is none, clear `isRunning` and return.
Otherwise set `isRunning`, record the popped options as `this.options`,
register the handler under the url, open the transport with the options'
method and url (async `true`), apply `setJsonHeaders`, send, then replace
the queue by the filtered remainder.  Returns the new state and the
transport commands issued. -/
def execute (s : HttpJS) : HttpJS × List TransportOp :=
  if s.isRunning then (s, [])
  else
    match s.queue with
    | [] => ({ s with isRunning := false }, [])
    | request :: rest =>
        let e := request
        let s1 : HttpJS :=
          { s with
            isRunning := true
            options := some request.options
            completionHandlers :=
              setHandler s.completionHandlers request.options.url request.handler }
        let ops : List TransportOp :=
          [.xhrOpen request.options.method request.options.url true]
            ++ setJsonHeaders s1.options ++ [.send]
        ({ s1 with queue := rest.filter (executeFilterPred e) }, ops)

/-- The function `executeNextTask()` (src/http-js.ts:145-148): clear `isRunning` and
run `execute()`. -/
def executeNextTask (s : HttpJS) : HttpJS × List TransportOp :=
  execute { s with isRunning := false }

/-- The function `get(options, completionHandler)` (src/http-js.ts:127-138): mutates
the caller's options object in place (`options.method = "GET"`;
`options.isJson = options.isJson` is a self-assignment), pushes the task,
and runs `execute()`.  JS passes the object by reference, so the first
component of the result is the caller-visible options object after the
call returns. -/
def get (s : HttpJS) (options : HttpJSRequestOptions) (completionHandler : Nat) :
    HttpJSRequestOptions × HttpJS × List TransportOp :=
  let options1 := { options with method := "GET", isJson := options.isJson }
  let s1 := { s with queue := s.queue ++ [⟨options1, completionHandler⟩] }
  let r := execute s1
  (options1, r.1, r.2)

/-- The function `json(options, completionHandler)` (src/http-js.ts:113-117): mutates
the caller's options in place (`method = "GET"`, `isJson = true`) and
delegates to `get`. -/
def json (s : HttpJS) (options : HttpJSRequestOptions) (completionHandler : Nat) :
    HttpJSRequestOptions × HttpJS × List TransportOp :=
  let options1 := { options with method := "GET", isJson := some true }
  get s options1 completionHandler

/-- The function `onReadyStateChangeHandler()` (src/http-js.ts:185-210): if the state
is not ready or `options` is undefined, return.  Look up the handler for
`options.url`; if undefined, return.  Compute
`isJson = options === undefined ? undefined : options.isJson === undefined ? false : options.isJson`,
then switch on `isJson !== undefined && isJson === true && status !== 0`:
on `true` the result is `JSON.parse(responseText)`, on `false` the raw
`responseText`.  Invoke the handler with the result and the status,
delete the registry entry, and run `executeNextTask()`.  Returns the new
state, the recorded callback invocations, and the transport commands
issued. -/
def onReadyStateChangeHandler (t : TransportView) (s : HttpJS) :
    HttpJS × List CallbackCall × List TransportOp :=
  if !isStateReady t.readyState then (s, [], [])
  else
    match s.options with
    | none => (s, [], [])
    | some opts =>
        match getHandler s.completionHandlers opts.url with
        | none => (s, [], [])
        | some handler =>
            let isJson : Option Bool :=
              match opts.isJson with
              | none => some false
              | some b => some b
            let result : HttpResult :=
              match isJson.isSome && (isJson == some true) && (t.status != 0) with
              | true => .parsed t.responseText
              | false => .raw t.responseText
            let call : CallbackCall := ⟨handler, result, t.status⟩
            let s1 := { s with completionHandlers := deleteHandler s.completionHandlers opts.url }
            let r := executeNextTask s1
            (r.1, [call], r.2)

/-- The function `close()` (src/http-js.ts:232-234): aborts the transport; touches no
dispatcher state. -/
def close (s : HttpJS) : HttpJS × List TransportOp :=
  (s, [.abort])

/-- The function `stop()` (src/http-js.ts:242-245): sets `isRunning = true` and aborts
the transport.  The queue is left intact. -/
def stop (s : HttpJS) : HttpJS × List TransportOp :=
  ({ s with isRunning := true }, [.abort])

/-- The function `start()` (src/http-js.ts:252-254): delegates to `executeNextTask()`. -/
def start (s : HttpJS) : HttpJS × List TransportOp :=
  executeNextTask s

/-- An externally visible event driving the dispatcher: a call to one of
the public entry points, or a ready-state notification from the transport
reaching its terminal state (`readyState = 4`) with the given status code
and response body. -/
inductive Event where
  | get (options : HttpJSRequestOptions) (cb : Nat)
  | json (options : HttpJSRequestOptions) (cb : Nat)
  | complete (status : Nat) (body : String)
  | stop
  | start
  | close
  deriving Repr, DecidableEq

/-- One event step of the dispatcher: the new state, the callback
invocations recorded during the step, and the transport commands issued
during the step. -/
def step (s : HttpJS) : Event → HttpJS × List CallbackCall × List TransportOp
  | .get options cb =>
      let r := get s options cb
      (r.2.1, [], r.2.2)
  | .json options cb =>
      let r := json s options cb
      (r.2.1, [], r.2.2)
  | .complete status body =>
      onReadyStateChangeHandler ⟨some 4, status, body⟩ s
  | .stop =>
      let r := stop s
      (r.1, [], r.2)
  | .start =>
      let r := start s
      (r.1, [], r.2)
  | .close =>
      let r := close s
      (r.1, [], r.2)

/-- Run a sequence of events from a state, accumulating the callback
invocations and transport commands in order. -/
def run (s : HttpJS) : List Event → HttpJS × List CallbackCall × List TransportOp
  | [] => (s, [], [])
  | ev :: rest =>
      let r1 := step s ev
      let r2 := run r1.1 rest
      (r2.1, r1.2.1 ++ r2.2.1, r1.2.2 ++ r2.2.2)

/-- The callback ids invoked during a run, in order of invocation. -/
def firedCbs (calls : List CallbackCall) : List Nat :=
  calls.map (fun c => c.cbId)

/-- Events of the enqueue/completion protocol handled by the scheduling
step and the completion handler: `get`, `json` and terminal ready-state
notifications (no explicit pause/resume/abort calls). -/
def isSchedEvent : Event → Bool
  | .get _ _ => true
  | .json _ _ => true
  | .complete _ _ => true
  | .stop => false
  | .start => false
  | .close => false

/-- Whether a list of transport commands contains a `send`. -/
def hasSend (ops : List TransportOp) : Bool :=
  ops.any fun op =>
    match op with
    | .send => true
    | _ => false

/-- Ghost tracking of "a popped task's `send` has been issued and its
completion has not yet been handled": the flag stays up while no callback
is invoked, and is raised exactly by a step that issues a `send`
(completion of the old operation is handled, in `onReadyStateChangeHandler`,
before `executeNextTask` can issue the next `send`). -/
def stepOutstanding (b : Bool) (calls : List CallbackCall) (ops : List TransportOp) : Bool :=
  (b && calls.isEmpty) || hasSend ops

/-- Run a sequence of events while tracking the ghost outstanding-send
flag alongside the dispatcher state. -/
def runOutstanding : HttpJS → Bool → List Event → HttpJS × Bool
  | s, b, [] => (s, b)
  | s, b, ev :: rest =>
      let r := step s ev
      runOutstanding r.1 (stepOutstanding b r.2.1 r.2.2) rest

/-- Every task sitting in the queue has method `"GET"` (all enqueues go
through `get`, which forces the method). -/
def QueueGET (s : HttpJS) : Prop :=
  ∀ r ∈ s.queue, r.options.method = "GET"

/-- Invariant tying the `isRunning` flag to the ghost outstanding-send
flag over the enqueue/completion protocol: the flag equals the ghost;
while a send is outstanding the current options are set and the registry
holds exactly the in-flight url's callback; while no send is outstanding
the queue and the registry are empty (the dispatch-time filter clears the
queue, so an idle dispatcher holds no pending task). -/
def SchedInv (s : HttpJS) (b : Bool) : Prop :=
  s.isRunning = b ∧
  (b = true → ∃ o cb, s.options = some o ∧ s.completionHandlers = [(o.url, cb)]) ∧
  (b = false → s.queue = [] ∧ s.completionHandlers = [])

/-- The filter callback returns `undefined` for every element, and
`filter` coerces `undefined` to `false`. -/
theorem executeFilterPred_eq_false (e h : HttpJSRequest) : executeFilterPred e h = false :=
  rfl

/-- Filtering any queue with the dispatch-time filter callback removes
every element. -/
theorem filter_executeFilterPred (e : HttpJSRequest) (q : List HttpJSRequest) :
    q.filter (executeFilterPred e) = [] := by
  induction q with
  | nil => rfl
  | cons h t ih => simp [List.filter_cons, executeFilterPred_eq_false, ih]

/-- C8: `isStateReady` is a pure predicate on the transport's ready
state, true exactly when the ready state is the terminal value 4 or is
undefined, and false for every other defined value. -/
theorem isStateReady_iff_terminal_or_undefined :
    ∀ st : Option Nat, isStateReady st = true ↔ (st = none ∨ st = some 4) := by
  intro st
  cases st with
  | none => simp [isStateReady]
  | some n => simp [isStateReady]

/-- C10: `get` overwrites the caller's options' `method` field with
`"GET"` (discarding any supplied `"POST"`), and `json` additionally
overwrites `isJson` with `true`; the first component of each result is
the caller-visible options object after the call returns, since JS passes
the object by reference. -/
theorem get_json_mutate_caller_options :
    ∀ (s : HttpJS) (options : HttpJSRequestOptions) (cb : Nat),
      (get s options cb).1 = { options with method := "GET" } ∧
      (json s options cb).1 = { options with method := "GET", isJson := some true } :=
  fun _ _ _ => ⟨rfl, rfl⟩

/-- C2 (counterexample): the queue filter performed by `execute` after
issuing the transport operation is not a no-op: with dispatched url
`"a"` and a remaining queued task for the distinct url `"b"`, the
remaining queue after the filter is empty rather than equal to the queue
before it. -/
theorem queue_filter_noop_counterexample :
    (execute ⟨[], none,
        [⟨⟨"GET", "a", none, none⟩, 0⟩, ⟨⟨"GET", "b", none, none⟩, 1⟩], false⟩).1.queue
      ≠ [⟨⟨"GET", "b", none, none⟩, 1⟩] := by
  decide

/-- C2 (amended): the queue-filter step removes every remaining queued
task, matching url or not: the filter callback's block body has no
return statement, so it yields `undefined`, which `filter` coerces to
`false`; consequently the queue is empty after every dispatch. -/
theorem queue_filter_clears_queue :
    (∀ (e : HttpJSRequest) (q : List HttpJSRequest), q.filter (executeFilterPred e) = []) ∧
    (∀ (s : HttpJS) (r : HttpJSRequest) (rest : List HttpJSRequest),
      s.isRunning = false → s.queue = r :: rest → (execute s).1.queue = []) := by
  refine ⟨filter_executeFilterPred, ?_⟩
  intro s r rest hrun hq
  simp [execute, hrun, hq, filter_executeFilterPred]

/-- Witness for C2's amended theorem at a concrete dispatched task and
queue. -/
theorem queue_filter_clears_queue_witness :
    List.filter (executeFilterPred ⟨⟨"GET", "a", none, none⟩, 0⟩)
        [⟨⟨"GET", "b", none, none⟩, 1⟩] = [] ∧
    (execute ⟨[], none,
        [⟨⟨"GET", "a", none, none⟩, 0⟩, ⟨⟨"GET", "b", none, none⟩, 1⟩], false⟩).1.queue = [] :=
  ⟨queue_filter_clears_queue.1 _ _, queue_filter_clears_queue.2 _ _ _ rfl rfl⟩

/-- C1 (failing run): three requests are enqueued via `get` for the
pairwise-distinct urls `"a"`, `"b"`, `"c"` and the transport completes
every operation it is given, yet only the first two callbacks ever fire:
the third task is removed from the queue by the queue-clearing filter
when the second task is dispatched, so callback 2 is never invoked. -/
theorem fifo_dispatch_drops_third_task :
    firedCbs (run initial
      [.get ⟨"GET", "a", none, none⟩ 0, .get ⟨"GET", "b", none, none⟩ 1,
       .get ⟨"GET", "c", none, none⟩ 2,
       .complete 200 "ra", .complete 200 "rb", .complete 200 "rc",
       .complete 200 "rd"]).2.1 = [0, 1] ∧
    ¬ (2 : Nat) ∈ firedCbs (run initial
      [.get ⟨"GET", "a", none, none⟩ 0, .get ⟨"GET", "b", none, none⟩ 1,
       .get ⟨"GET", "c", none, none⟩ 2,
       .complete 200 "ra", .complete 200 "rb", .complete 200 "rc",
       .complete 200 "rd"]).2.1 := by
  decide

/-- C4 (failing run): after `stop`, enqueuing two tasks issues no
transport command (the only command so far is `stop`'s abort) and leaves
both tasks in the queue; but after `start`, only the first queued task is
ever completed: the second is dropped by the queue-clearing filter at the
resumed dispatch, so its callback never fires. -/
theorem stop_start_drops_queued_task :
    (run initial [.stop, .get ⟨"GET", "a", none, none⟩ 1,
        .get ⟨"GET", "b", none, none⟩ 2]).1.queue
      = [⟨⟨"GET", "a", none, none⟩, 1⟩, ⟨⟨"GET", "b", none, none⟩, 2⟩] ∧
    (run initial [.stop, .get ⟨"GET", "a", none, none⟩ 1,
        .get ⟨"GET", "b", none, none⟩ 2]).2.2 = [.abort] ∧
    firedCbs (run initial
      [.stop, .get ⟨"GET", "a", none, none⟩ 1, .get ⟨"GET", "b", none, none⟩ 2,
       .start, .complete 200 "ra", .complete 200 "rb"]).2.1 = [1] := by
  decide

/-- C6 (counterexample): enqueuing a second task for url `"u"` while a
task for `"u"` is registered in the completion registry does not
overwrite the registration at enqueue time (the registry still maps
`"u"` to callback 1 afterwards), and in the normal completion flow the
first task's callback IS invoked (both callbacks fire, in order). -/
theorem duplicate_url_counterexample :
    (run initial [.get ⟨"GET", "u", none, none⟩ 1,
        .get ⟨"GET", "u", none, none⟩ 2]).1.completionHandlers = [("u", 1)] ∧
    firedCbs (run initial
      [.get ⟨"GET", "u", none, none⟩ 1, .get ⟨"GET", "u", none, none⟩ 2,
       .complete 200 "r1", .complete 200 "r2"]).2.1 = [1, 2] := by
  decide

/-- C6 (amended): registration happens at dispatch, not at enqueue.
Enqueuing a second task for an already-registered url leaves the
registry unchanged; in the normal flow the first task's completion is
handled before the second dispatches, so both callbacks fire in order.
The registration is overwritten only when the second task is dispatched
before the first task's completion is handled (here via `stop` then
`start`), and in that case the first task's callback is never invoked:
only the second callback fires, and the run ends with an empty registry
and queue, so no later event can fire the first callback. -/
theorem duplicate_url_overwrite_behavior :
    ∀ (u b1 b2 : String) (cb1 cb2 : Nat),
      (run initial [.get ⟨"GET", u, none, none⟩ cb1,
          .get ⟨"GET", u, none, none⟩ cb2]).1.completionHandlers = [(u, cb1)] ∧
      firedCbs (run initial
        [.get ⟨"GET", u, none, none⟩ cb1, .get ⟨"GET", u, none, none⟩ cb2,
         .complete 200 b1, .complete 200 b2]).2.1 = [cb1, cb2] ∧
      (run initial
        [.get ⟨"GET", u, none, none⟩ cb1, .get ⟨"GET", u, none, none⟩ cb2,
         .stop, .start]).1.completionHandlers = [(u, cb2)] ∧
      firedCbs (run initial
        [.get ⟨"GET", u, none, none⟩ cb1, .get ⟨"GET", u, none, none⟩ cb2,
         .stop, .start, .complete 0 b1]).2.1 = [cb2] ∧
      (run initial
        [.get ⟨"GET", u, none, none⟩ cb1, .get ⟨"GET", u, none, none⟩ cb2,
         .stop, .start, .complete 0 b1]).1.completionHandlers = [] ∧
      (run initial
        [.get ⟨"GET", u, none, none⟩ cb1, .get ⟨"GET", u, none, none⟩ cb2,
         .stop, .start, .complete 0 b1]).1.queue = [] := by
  intro u b1 b2 cb1 cb2
  refine ⟨?_, ?_, ?_, ?_, ?_, ?_⟩ <;>
    simp [run, step, initial, get, json, execute, executeNextTask, onReadyStateChangeHandler,
      setHandler, getHandler, deleteHandler, isStateReady, setJsonHeaders,
      stop, start, firedCbs, filter_executeFilterPred]

/-- The function `execute` on a running dispatcher returns the state unchanged and
issues no transport command. -/
theorem execute_of_running (s : HttpJS) (h : s.isRunning = true) : execute s = (s, []) := by
  simp [execute, h]

/-- The function `execute` on an idle dispatcher with an empty queue only clears the
running flag. -/
theorem execute_of_empty (s : HttpJS) (h1 : s.isRunning = false) (h2 : s.queue = []) :
    execute s = ({ s with isRunning := false }, []) := by
  simp [execute, h1, h2]

/-- The function `execute` on an idle dispatcher with a queued task pops it, records
its options, registers its handler, empties the rest of the queue, and
issues open / header configuration / send. -/
theorem execute_of_cons (s : HttpJS) (r : HttpJSRequest) (rest : List HttpJSRequest)
    (h1 : s.isRunning = false) (h2 : s.queue = r :: rest) :
    execute s =
      ({ s with
          isRunning := true,
          options := some r.options,
          completionHandlers := setHandler s.completionHandlers r.options.url r.handler,
          queue := [] },
        [.xhrOpen r.options.method r.options.url true]
          ++ setJsonHeaders (some r.options) ++ [.send]) := by
  simp [execute, h1, h2, filter_executeFilterPred]

/-- The function `executeNextTask` on an empty queue clears the running flag and
issues nothing. -/
theorem executeNextTask_of_empty (s : HttpJS) (h : s.queue = []) :
    executeNextTask s = ({ s with isRunning := false }, []) := by
  have := execute_of_empty { s with isRunning := false } rfl h
  simpa [executeNextTask] using this

/-- The function `executeNextTask` on a nonempty queue dispatches the head task. -/
theorem executeNextTask_of_cons (s : HttpJS) (r : HttpJSRequest) (rest : List HttpJSRequest)
    (h : s.queue = r :: rest) :
    executeNextTask s =
      ({ s with
          isRunning := true,
          options := some r.options,
          completionHandlers := setHandler s.completionHandlers r.options.url r.handler,
          queue := [] },
        [.xhrOpen r.options.method r.options.url true]
          ++ setJsonHeaders (some r.options) ++ [.send]) := by
  have := execute_of_cons { s with isRunning := false } r rest rfl h
  simpa [executeNextTask] using this

/-- The function `setJsonHeaders` on set options emits the `Accept` header exactly when
the `isJson` flag is `true`. -/
theorem setJsonHeaders_some (o : HttpJSRequestOptions) :
    setJsonHeaders (some o) =
      if o.isJson = some true then [TransportOp.setRequestHeader "Accept" "application/json"]
      else [] := by
  cases hj : o.isJson with
  | none => simp [setJsonHeaders, hj]
  | some b => cases b <;> simp [setJsonHeaders, hj]

/-- A dispatch command list contains a `send`. -/
theorem hasSend_dispatch (m u : String) (a : Bool) (hdrs : List TransportOp) :
    hasSend (TransportOp.xhrOpen m u a :: (hdrs ++ [TransportOp.send])) = true := by
  simp [hasSend]

/-- A `get` call on a running dispatcher only appends the task. -/
theorem step_get_running (s : HttpJS) (opts : HttpJSRequestOptions) (cb : Nat)
    (h : s.isRunning = true) :
    step s (.get opts cb) =
      ({ s with queue := s.queue ++ [⟨{ opts with method := "GET" }, cb⟩] }, [], []) := by
  simp [step, get, execute, h]

/-- A `get` call on an idle dispatcher with an empty queue dispatches the
new task at once. -/
theorem step_get_idle (s : HttpJS) (opts : HttpJSRequestOptions) (cb : Nat)
    (h1 : s.isRunning = false) (h2 : s.queue = []) :
    step s (.get opts cb) =
      ({ s with
          isRunning := true,
          options := some { opts with method := "GET" },
          completionHandlers := setHandler s.completionHandlers opts.url cb,
          queue := [] },
        [],
        [.xhrOpen "GET" opts.url true]
          ++ setJsonHeaders (some { opts with method := "GET" }) ++ [.send]) := by
  simp [step, get, execute, h1, h2, filter_executeFilterPred]

/-- A `json` event behaves as a `get` event with `isJson` forced. -/
theorem step_json_eq_step_get (s : HttpJS) (opts : HttpJSRequestOptions) (cb : Nat) :
    step s (.json opts cb) =
      step s (.get { opts with method := "GET", isJson := some true } cb) :=
  rfl

/-- A terminal notification with current options unset is a no-op. -/
theorem step_complete_no_options (s : HttpJS) (st : Nat) (body : String)
    (h : s.options = none) :
    step s (.complete st body) = (s, [], []) := by
  simp [step, onReadyStateChangeHandler, isStateReady, h]

/-- A terminal notification with no registry entry for the current url is
a no-op. -/
theorem step_complete_no_handler (s : HttpJS) (st : Nat) (body : String)
    (o : HttpJSRequestOptions) (ho : s.options = some o)
    (hh : getHandler s.completionHandlers o.url = none) :
    step s (.complete st body) = (s, [], []) := by
  simp [step, onReadyStateChangeHandler, isStateReady, ho, hh]

/-- A terminal notification with a registered callback for the current
url invokes exactly one callback, deletes the registry entry, and
advances via `executeNextTask`. -/
theorem step_complete_fires_parts (s : HttpJS) (st : Nat) (body : String)
    (o : HttpJSRequestOptions) (cbo : Nat) (ho : s.options = some o)
    (hh : getHandler s.completionHandlers o.url = some cbo) :
    (step s (.complete st body)).1 =
        (executeNextTask
          { s with completionHandlers := deleteHandler s.completionHandlers o.url }).1 ∧
    (step s (.complete st body)).2.1.isEmpty = false ∧
    (step s (.complete st body)).2.2 =
        (executeNextTask
          { s with completionHandlers := deleteHandler s.completionHandlers o.url }).2 := by
  refine ⟨?_, ?_, ?_⟩ <;> simp [step, onReadyStateChangeHandler, isStateReady, ho, hh]

end HttpJS

namespace HttpJS

/-- One enqueue/completion-protocol step preserves `SchedInv`: the
running flag tracks the ghost outstanding-send flag through every `get`,
`json` and terminal-notification step. -/
theorem sched_step_preserves (s : HttpJS) (b : Bool) (ev : Event)
    (hev : isSchedEvent ev = true) (hinv : SchedInv s b) :
    SchedInv (step s ev).1 (stepOutstanding b (step s ev).2.1 (step s ev).2.2) := by
  obtain ⟨h1, h2, h3⟩ := hinv
  cases ev with
  | stop => simp [isSchedEvent] at hev
  | start => simp [isSchedEvent] at hev
  | close => simp [isSchedEvent] at hev
  | get opts cb =>
      cases b with
      | true =>
          obtain ⟨o, cbo, ho, hch⟩ := h2 rfl
          rw [step_get_running s opts cb h1]
          refine ⟨h1, fun _ => ⟨o, cbo, ho, hch⟩, fun hf => ?_⟩
          simp [stepOutstanding, hasSend] at hf
      | false =>
          obtain ⟨hq, hch⟩ := h3 rfl
          rw [step_get_idle s opts cb h1 hq]
          refine ⟨?_, fun _ => ⟨{ opts with method := "GET" }, cb, rfl, by rw [hch]; rfl⟩,
            fun hf => ?_⟩
          · simp [stepOutstanding, hasSend_dispatch]
          · simp [stepOutstanding, hasSend_dispatch] at hf
  | json opts cb =>
      rw [step_json_eq_step_get]
      cases b with
      | true =>
          obtain ⟨o, cbo, ho, hch⟩ := h2 rfl
          rw [step_get_running s _ cb h1]
          refine ⟨h1, fun _ => ⟨o, cbo, ho, hch⟩, fun hf => ?_⟩
          simp [stepOutstanding, hasSend] at hf
      | false =>
          obtain ⟨hq, hch⟩ := h3 rfl
          rw [step_get_idle s _ cb h1 hq]
          refine ⟨?_, fun _ => ⟨_, cb, rfl, by rw [hch]; rfl⟩, fun hf => ?_⟩
          · simp [stepOutstanding, hasSend_dispatch]
          · simp [stepOutstanding, hasSend_dispatch] at hf
  | complete st body =>
      cases b with
      | false =>
          obtain ⟨hq, hch⟩ := h3 rfl
          cases ho : s.options with
          | none =>
              rw [step_complete_no_options s st body ho]
              exact ⟨h1, fun hf => by simp [stepOutstanding, hasSend] at hf,
                fun _ => ⟨hq, hch⟩⟩
          | some o =>
              have hh : getHandler s.completionHandlers o.url = none := by
                rw [hch]; rfl
              rw [step_complete_no_handler s st body o ho hh]
              exact ⟨h1, fun hf => by simp [stepOutstanding, hasSend] at hf,
                fun _ => ⟨hq, hch⟩⟩
      | true =>
          obtain ⟨o, cbo, ho, hch⟩ := h2 rfl
          have hh : getHandler s.completionHandlers o.url = some cbo := by
            rw [hch]; simp [getHandler]
          obtain ⟨hs1, hcalls, hops⟩ := step_complete_fires_parts s st body o cbo ho hh
          have hdel : deleteHandler s.completionHandlers o.url = [] := by
            rw [hch]; simp [deleteHandler]
          cases hqs : s.queue with
          | nil =>
              have hent := executeNextTask_of_empty
                { s with completionHandlers := deleteHandler s.completionHandlers o.url } hqs
              rw [hs1, hent]
              have hops2 : (step s (.complete st body)).2.2 = [] := by
                rw [hops, hent]
              refine ⟨?_, fun hf => ?_, fun _ => ⟨hqs, ?_⟩⟩
              · simp [stepOutstanding, hops2, hasSend, hcalls]
              · simp [stepOutstanding, hops2, hasSend, hcalls] at hf
              · exact hdel
          | cons r rest =>
              have hent := executeNextTask_of_cons
                { s with completionHandlers := deleteHandler s.completionHandlers o.url } r rest hqs
              rw [hs1, hent]
              have hops2 : (step s (.complete st body)).2.2 =
                  [TransportOp.xhrOpen r.options.method r.options.url true]
                    ++ setJsonHeaders (some r.options) ++ [TransportOp.send] := by
                rw [hops, hent]
              refine ⟨?_, fun _ => ⟨r.options, r.handler, rfl, ?_⟩, fun hf => ?_⟩
              · simp [stepOutstanding, hops2, hasSend_dispatch, hcalls]
              · rw [hdel]; rfl
              · simp [stepOutstanding, hops2, hasSend_dispatch, hcalls] at hf

/-- Over any trace of enqueue/completion-protocol events, `SchedInv` is
an invariant of the instrumented run. -/
theorem runOutstanding_inv (evs : List Event) :
    ∀ (s : HttpJS) (b : Bool), (∀ e ∈ evs, isSchedEvent e = true) → SchedInv s b →
      SchedInv (runOutstanding s b evs).1 (runOutstanding s b evs).2 := by
  induction evs with
  | nil => intro s b _ h; exact h
  | cons ev rest ih =>
      intro s b hall hinv
      have hstep := sched_step_preserves s b ev (hall ev (by simp)) hinv
      exact ih _ _ (fun e he => hall e (by simp [he])) hstep

/-- C3: at most one transport operation is ever in flight.  First, when
the running flag is true the scheduling step `execute` leaves the whole
state (queue, registry, current options) untouched and issues no
transport command.  Second, over every trace of the enqueue/completion
protocol (the events handled by `execute`, `executeNextTask` and the
completion handler) starting from the constructed dispatcher, the
running flag is true exactly when a popped task's `send` has been issued
and its completion has not yet been handled (the ghost flag of
`runOutstanding`). -/
theorem at_most_one_in_flight :
    (∀ s : HttpJS, s.isRunning = true → execute s = (s, [])) ∧
    (∀ evs : List Event, (∀ e ∈ evs, isSchedEvent e = true) →
      (runOutstanding initial false evs).1.isRunning = (runOutstanding initial false evs).2) := by
  refine ⟨execute_of_running, ?_⟩
  intro evs hall
  have h := runOutstanding_inv evs initial false hall
    ⟨rfl, fun hf => absurd hf (by simp), fun _ => ⟨rfl, rfl⟩⟩
  exact h.1

/-- Witness for C3 at a concrete running state and a concrete
enqueue/completion trace. -/
theorem at_most_one_in_flight_witness :
    execute ⟨[("u", 0)], some ⟨"GET", "u", none, none⟩, [], true⟩
      = (⟨[("u", 0)], some ⟨"GET", "u", none, none⟩, [], true⟩, []) ∧
    (runOutstanding initial false
        [.get ⟨"GET", "a", none, none⟩ 0, .complete 200 "r"]).1.isRunning
      = (runOutstanding initial false
        [.get ⟨"GET", "a", none, none⟩ 0, .complete 200 "r"]).2 :=
  ⟨at_most_one_in_flight.1 _ rfl,
   at_most_one_in_flight.2 _ (by simp [isSchedEvent])⟩

/-- C5: completion decoding policy.  Whenever the completion handler
fires a callback (terminal ready state, options set, registry entry
present), the callback receives the body parsed as structured data if the
current options' `isJson` flag is `true` and the status code is non-zero,
and the raw response text unchanged in every other case (isJson
false/unset, or status 0), together with the status code. -/
theorem decoding_policy :
    ∀ (t : TransportView) (s : HttpJS) (o : HttpJSRequestOptions) (cb : Nat),
      isStateReady t.readyState = true →
      s.options = some o →
      getHandler s.completionHandlers o.url = some cb →
      (onReadyStateChangeHandler t s).2.1 =
        [⟨cb,
          if o.isJson = some true ∧ t.status ≠ 0 then .parsed t.responseText
          else .raw t.responseText,
          t.status⟩] := by
  intro t s o cb hr ho hh
  rcases hj : o.isJson with _ | b
  · simp [onReadyStateChangeHandler, hr, ho, hh, hj]
  · cases b with
    | false => simp [onReadyStateChangeHandler, hr, ho, hh, hj]
    | true =>
        by_cases hst : t.status = 0
        · simp [onReadyStateChangeHandler, hr, ho, hh, hj, hst]
        · have hb : (t.status != 0) = true := by simp [hst]
          simp [onReadyStateChangeHandler, hr, ho, hh, hj, hst, hb]

/-- Witness for C5 at a concrete in-flight state with `isJson = true` and
status 200. -/
theorem decoding_policy_witness :
    (onReadyStateChangeHandler ⟨some 4, 200, "[1,2,3]"⟩
        ⟨[("u", 3)], some ⟨"GET", "u", none, some true⟩, [], true⟩).2.1 =
      [⟨3,
        if (⟨"GET", "u", none, some true⟩ : HttpJSRequestOptions).isJson = some true
            ∧ (200 : Nat) ≠ 0
        then .parsed "[1,2,3]" else .raw "[1,2,3]",
        200⟩] :=
  decoding_policy ⟨some 4, 200, "[1,2,3]"⟩ _ ⟨"GET", "u", none, some true⟩ 3
    (by decide) rfl (by decide)

/-- C7: the completion handler invokes a callback iff the transport is in
its terminal ready state, the current options are set, and the registry
holds an entry for the current options' url; when any guard fails the
handler is a no-op returning the state unchanged (queue, registry,
current options and running flag untouched) with no callback and no
transport command. -/
theorem handler_guard_iff :
    ∀ (t : TransportView) (s : HttpJS),
      ((onReadyStateChangeHandler t s).2.1 ≠ [] ↔
        (isStateReady t.readyState = true ∧
          ∃ o cb, s.options = some o ∧ getHandler s.completionHandlers o.url = some cb)) ∧
      ((isStateReady t.readyState = false ∨ s.options = none ∨
          (∀ o, s.options = some o → getHandler s.completionHandlers o.url = none)) →
        onReadyStateChangeHandler t s = (s, [], [])) := by
  intro t s
  constructor
  · cases hr : isStateReady t.readyState with
    | false => simp [onReadyStateChangeHandler, hr]
    | true =>
        cases ho : s.options with
        | none => simp [onReadyStateChangeHandler, hr, ho]
        | some o =>
            cases hh : getHandler s.completionHandlers o.url with
            | none => simp [onReadyStateChangeHandler, hr, ho, hh]
            | some cbo => simp [onReadyStateChangeHandler, hr, ho, hh]
  · intro hcond
    rcases hcond with hr | ho | hno
    · simp [onReadyStateChangeHandler, hr]
    · cases hr : isStateReady t.readyState with
      | false => simp [onReadyStateChangeHandler, hr]
      | true => simp [onReadyStateChangeHandler, hr, ho]
    · cases hr : isStateReady t.readyState with
      | false => simp [onReadyStateChangeHandler, hr]
      | true =>
          cases ho : s.options with
          | none => simp [onReadyStateChangeHandler, hr, ho]
          | some o => simp [onReadyStateChangeHandler, hr, ho, hno o ho]

/-- Witness for C7: a non-terminal notification (ready state 3) on the
fresh dispatcher is a no-op. -/
theorem handler_guard_iff_witness :
    onReadyStateChangeHandler ⟨some 3, 200, "r"⟩ initial = (initial, [], []) :=
  (handler_guard_iff ⟨some 3, 200, "r"⟩ initial).2 (Or.inl (by decide))

/-- If every queued task has method GET, `execute` preserves that and
every open it issues uses method GET. -/
theorem execute_opens_GET (s : HttpJS) (hq : QueueGET s) :
    QueueGET (execute s).1 ∧
      (∀ m u a, TransportOp.xhrOpen m u a ∈ (execute s).2 → m = "GET") := by
  cases hrun : s.isRunning with
  | true =>
      rw [execute_of_running s hrun]
      exact ⟨hq, fun m u a h => by simp at h⟩
  | false =>
      cases hqs : s.queue with
      | nil =>
          rw [execute_of_empty s hrun hqs]
          refine ⟨?_, fun m u a h => by simp at h⟩
          intro x hx
          simp [hqs] at hx
      | cons r rest =>
          rw [execute_of_cons s r rest hrun hqs]
          have hr : r.options.method = "GET" := hq r (by rw [hqs]; simp)
          refine ⟨fun x hx => by simp at hx, ?_⟩
          intro m u a hmem
          rw [setJsonHeaders_some] at hmem
          by_cases hj : r.options.isJson = some true <;>
            simp [hj] at hmem <;>
            exact hmem.1 ▸ hr

/-- If every queued task has method GET, `executeNextTask` preserves that
and every open it issues uses method GET. -/
theorem executeNextTask_opens_GET (s : HttpJS) (hq : QueueGET s) :
    QueueGET (executeNextTask s).1 ∧
      (∀ m u a, TransportOp.xhrOpen m u a ∈ (executeNextTask s).2 → m = "GET") :=
  execute_opens_GET { s with isRunning := false } hq

/-- Every event step preserves the all-queued-tasks-are-GET invariant and
only issues opens with method GET. -/
theorem step_opens_GET (s : HttpJS) (ev : Event) (hq : QueueGET s) :
    QueueGET (step s ev).1 ∧
      (∀ m u a, TransportOp.xhrOpen m u a ∈ (step s ev).2.2 → m = "GET") := by
  cases ev with
  | get opts cb =>
      refine execute_opens_GET
        { s with queue := s.queue ++ [⟨{ opts with method := "GET" }, cb⟩] } ?_
      intro r hr
      simp at hr
      rcases hr with hr | hr
      · exact hq r hr
      · rw [hr]
  | json opts cb =>
      refine execute_opens_GET
        { s with queue := s.queue ++
            [⟨{ opts with method := "GET", isJson := some true }, cb⟩] } ?_
      intro r hr
      simp at hr
      rcases hr with hr | hr
      · exact hq r hr
      · rw [hr]
  | complete st body =>
      cases ho : s.options with
      | none =>
          rw [step_complete_no_options s st body ho]
          exact ⟨hq, fun m u a h => by simp at h⟩
      | some o =>
          cases hh : getHandler s.completionHandlers o.url with
          | none =>
              rw [step_complete_no_handler s st body o ho hh]
              exact ⟨hq, fun m u a h => by simp at h⟩
          | some cbo =>
              obtain ⟨hs1, _, hops⟩ := step_complete_fires_parts s st body o cbo ho hh
              have hnext := executeNextTask_opens_GET
                { s with completionHandlers := deleteHandler s.completionHandlers o.url } hq
              rw [hs1, hops]
              exact hnext
  | stop => exact ⟨hq, fun m u a h => by simp [step, stop] at h⟩
  | start => exact executeNextTask_opens_GET s hq
  | close => exact ⟨hq, fun m u a h => by simp [step, close] at h⟩

/-- Over any event trace from a state whose queued tasks are all GET,
every issued open uses method GET. -/
theorem run_opens_GET (evs : List Event) :
    ∀ s : HttpJS, QueueGET s →
      QueueGET (run s evs).1 ∧
        (∀ m u a, TransportOp.xhrOpen m u a ∈ (run s evs).2.2 → m = "GET") := by
  induction evs with
  | nil => exact fun s hq => ⟨hq, fun m u a h => by simp [run] at h⟩
  | cons ev rest ih =>
      intro s hq
      obtain ⟨hq1, hops1⟩ := step_opens_GET s ev hq
      obtain ⟨hq2, hops2⟩ := ih _ hq1
      refine ⟨hq2, ?_⟩
      intro m u a h
      have h2 : TransportOp.xhrOpen m u a ∈ (step s ev).2.2 ++ (run (step s ev).1 rest).2.2 := h
      rcases List.mem_append.mp h2 with hmem | hmem
      · exact hops1 m u a hmem
      · exact hops2 m u a hmem

/-- C9: every dispatch opens the transport with the popped task's method
and url and sends, with the `Accept: application/json` header set between
open and send exactly when the dispatched options' `isJson` flag is
`true`; and over every event trace of the public API from the constructed
dispatcher, every issued open uses method "GET" (both `get` and `json`
force the method). -/
theorem get_method_and_accept_header :
    (∀ (s : HttpJS) (r : HttpJSRequest) (rest : List HttpJSRequest),
      s.isRunning = false → s.queue = r :: rest →
      (execute s).2 =
        [.xhrOpen r.options.method r.options.url true]
          ++ (if r.options.isJson = some true
              then [TransportOp.setRequestHeader "Accept" "application/json"] else [])
          ++ [.send]) ∧
    (∀ (evs : List Event) (m u : String) (a : Bool),
      TransportOp.xhrOpen m u a ∈ (run initial evs).2.2 → m = "GET") := by
  constructor
  · intro s r rest h1 h2
    rw [execute_of_cons s r rest h1 h2, setJsonHeaders_some]
  · intro evs m u a h
    exact (run_opens_GET evs initial (fun r hr => by simp [initial] at hr)).2 m u a h

/-- Witness for C9 at a concrete idle state with one queued GET task and
a concrete one-event trace. -/
theorem get_method_and_accept_header_witness :
    (execute ⟨[], none, [⟨⟨"GET", "a", none, none⟩, 0⟩], false⟩).2 =
      [TransportOp.xhrOpen "GET" "a" true]
        ++ (if (none : Option Bool) = some true
            then [TransportOp.setRequestHeader "Accept" "application/json"] else [])
        ++ [TransportOp.send] ∧
    "GET" = "GET" :=
  ⟨get_method_and_accept_header.1
      ⟨[], none, [⟨⟨"GET", "a", none, none⟩, 0⟩], false⟩
      ⟨⟨"GET", "a", none, none⟩, 0⟩ [] rfl rfl,
   get_method_and_accept_header.2 [.get ⟨"GET", "a", none, none⟩ 0]
      "GET" "a" true (by decide)⟩


end HttpJS
